import Mathlib

/-!
Verification of the data layer of the VH-Dashboard application (src/app.py).

Modelling conventions:
* The SQLite database is a pure record `DB` holding the three tables as lists
  together with the AUTOINCREMENT counters.
* Calendar dates are modelled as integers (days).  The application stores dates
  as ISO `YYYY-MM-DD` strings, whose lexicographic order coincides with
  chronological order, so an integer model preserves all comparisons.
* The `present` column is stored as 0/1 in SQLite (`1 if present else 0`);
  it is modelled as `Bool`, and aggregate means count `true` entries.
* `ORDER BY created DESC` (get_prayers_df) is modelled as a stable descending
  sort of the rows in rowid (insertion) order, matching the engine's scan
  order and the observed behaviour of the query.
* "today" / "now" are explicit parameters of the operations that read the
  clock (`date.today()`, `pd.Timestamp.today()`).
-/

namespace VH

/-- A row of the `members` table (src/app.py lines 26-33). -/
structure Member where
  id : Nat
  name : String
  phone : String
  email : String
  role : String
  joined : Int
deriving DecidableEq

/-- A row of the `attendance` table (src/app.py lines 36-43). -/
structure ARecord where
  id : Nat
  member_id : Nat
  attend_date : Int
  present : Bool
  note : String
deriving DecidableEq

/-- A row of the `prayers` table (src/app.py lines 46-52). -/
structure Prayer where
  id : Nat
  requester : String
  content : String
  created : Int
  status : String
deriving DecidableEq

/-- The whole SQLite database: three tables plus AUTOINCREMENT counters. -/
structure DB where
  members : List Member
  attendance : List ARecord
  prayers : List Prayer
  nextMemberId : Nat
  nextARecordId : Nat
  nextPrayerId : Nat
deriving DecidableEq

/-- Model of `init_db` on a fresh file: three empty tables, ids start at 1. -/
def initState : DB :=
  ⟨[], [], [], 1, 1, 1⟩

/-- Model of `add_member` (src/app.py lines 71-75): unconditional INSERT, with
`joined = date.today()` passed as the `today` parameter. -/
def add_member (name phone email role : String) (today : Int) (db : DB) : DB :=
  { db with
    members := db.members ++ [⟨db.nextMemberId, name, phone, email, role, today⟩]
    nextMemberId := db.nextMemberId + 1 }

/-- Model of `add_attendance` (src/app.py lines 77-81): unconditional INSERT
(`1 if present else 0` is the Bool model of `present`). -/
def add_attendance (member_id : Nat) (attend_date : Int) (present : Bool)
    (note : String) (db : DB) : DB :=
  { db with
    attendance := db.attendance ++ [⟨db.nextARecordId, member_id, attend_date, present, note⟩]
    nextARecordId := db.nextARecordId + 1 }

/-- Model of `add_prayer` (src/app.py lines 83-87): unconditional INSERT with
`created = date.today()` and `status = "open"`. -/
def add_prayer (requester content : String) (today : Int) (db : DB) : DB :=
  { db with
    prayers := db.prayers ++ [⟨db.nextPrayerId, requester, content, today, "open"⟩]
    nextPrayerId := db.nextPrayerId + 1 }

/-- Model of `update_prayer_status` (src/app.py lines 89-90):
`UPDATE prayers SET status = ? WHERE id = ?`. -/
def update_prayer_status (prayer_id : Nat) (status : String) (db : DB) : DB :=
  { db with
    prayers := db.prayers.map fun p =>
      if p.id = prayer_id then { p with status := status } else p }

/-- The "Ajouter" handler of the member form (src/app.py lines 174-179):
empty name is rejected with a warning and no insert. -/
def add_member_form (name phone email role : String) (today : Int) (db : DB) : DB :=
  if name = "" then db else add_member name phone email role today db

/-- The "Soumettre" handler of the prayer form (src/app.py lines 233-238):
empty content is rejected with a warning and no insert; the requester text is
passed through verbatim. -/
def prayer_form (requester content : String) (today : Int) (db : DB) : DB :=
  if content = "" then db else add_prayer requester content today db

/-- Model of `get_members_df` (src/app.py lines 94-95): `SELECT * FROM members`. -/
def get_members_df (db : DB) : List Member :=
  db.members

/-- A row of the attendance view produced by `get_attendance_df`. -/
structure AttRow where
  id : Nat
  member_id : Nat
  member_name : Option String
  attend_date : Int
  present : Bool
  note : String
deriving DecidableEq

/-- Model of `get_attendance_df` (src/app.py lines 97-98): LEFT JOIN of attendance to
members on member id, attaching the member name (NULL when unresolved). -/
def get_attendance_df (db : DB) : List AttRow :=
  db.attendance.map fun a =>
    ⟨a.id, a.member_id, (db.members.find? fun m => m.id = a.member_id).map Member.name,
     a.attend_date, a.present, a.note⟩

/-- The comparator of `ORDER BY created DESC`: `p` may come before `q`
iff `p.created ≥ q.created`. -/
def createdDesc (p q : Prayer) : Prop :=
  q.created ≤ p.created

instance : DecidableRel createdDesc := fun p q =>
  inferInstanceAs (Decidable (q.created ≤ p.created))

instance : IsTotal Prayer createdDesc :=
  ⟨fun p q => le_total q.created p.created⟩

instance : IsTrans Prayer createdDesc :=
  ⟨fun _ _ _ h h' => le_trans h' h⟩

/-- Model of `get_prayers_df` (src/app.py lines 100-101):
`SELECT * FROM prayers ORDER BY created DESC`, modelled as a stable
descending sort of the rows in rowid (insertion) order. -/
def get_prayers_df (db : DB) : List Prayer :=
  List.insertionSort createdDesc db.prayers

/-- The 30-day attendance-rate metric (src/app.py lines 130-142): `none`
models the "N/A" rendering, `some r` a percentage.  The filter keeps rows with
`attend_date >= now - 30 days`, exactly as the code
(`attendance['attend_date'] >= pd.Timestamp.today() - pd.Timedelta(days=30)`). -/
def attendanceRate30 (now : Int) (att : List AttRow) : Option ℚ :=
  if 0 < att.length then
    let last30 := att.filter fun r => now - 30 ≤ r.attend_date
    if 0 < last30.length then
      some ((last30.countP (fun r => r.present) : ℚ) / (last30.length : ℚ) * 100)
    else none
  else none

/-- The daily attendance aggregation feeding the trend chart
(src/app.py lines 148-156): group by date, mean of `present` as a
percentage; pandas `groupby` emits groups with sorted keys. -/
def dailyAttendanceRate (att : List AttRow) : List (Int × ℚ) :=
  (List.insertionSort (· ≤ ·) ((att.map AttRow.attend_date).dedup)).map fun d =>
    let grp := att.filter fun r => r.attend_date = d
    (d, (grp.countP (fun r => r.present) : ℚ) / (grp.length : ℚ) * 100)

/-- ASCII whitespace stripped by Python's `str.strip()`. -/
def isPySpace (c : Char) : Bool :=
  c = ' ' || c = '\t' || c = '\n' || c = '\r'

/-- The confirmation-token normalisation of the reset flow
(src/app.py line 281): `confirm.strip().upper()`, modelled on the
character list of the token (ASCII uppercasing). -/
def normalizeToken (tok : String) : List Char :=
  (((tok.data.dropWhile isPySpace).reverse.dropWhile isPySpace).reverse).map Char.toUpper

/-- The reset handler (src/app.py lines 279-288): a token whose trimmed
uppercasing equals "CONFIRMER" drops the three tables and re-runs `init_db`;
any other token only produces a warning. -/
def reset_submit (tok : String) (db : DB) : DB :=
  if normalizeToken tok = ("CONFIRMER" : String).data then initState else db

/-- The database states reachable through the application's operations: the
fresh database, the three form handlers, the two prayer-status buttons
(src/app.py lines 249-254, which only ever pass "answered" or "open"), and
the reset flow. -/
inductive Reachable : DB → Prop
  | init : Reachable initState
  | member (name phone email role : String) (today : Int) {db : DB} :
      Reachable db → Reachable (add_member_form name phone email role today db)
  | attRec (mid : Nat) (d : Int) (pr : Bool) (note : String) {db : DB} :
      Reachable db → Reachable (add_attendance mid d pr note db)
  | prayer (requester content : String) (today : Int) {db : DB} :
      Reachable db → Reachable (prayer_form requester content today db)
  | markAnswered (i : Nat) {db : DB} :
      Reachable db → Reachable (update_prayer_status i ("answered") db)
  | markOpen (i : Nat) {db : DB} :
      Reachable db → Reachable (update_prayer_status i ("open") db)
  | reset (tok : String) {db : DB} :
      Reachable db → Reachable (reset_submit tok db)

/-! ### CSV serialization (csv_from_df / DataFrame.to_csv, src/app.py 103-107)

`to_csv` delegates to Python's csv writer with minimal quoting: a field is
wrapped in double quotes exactly when it contains the delimiter, the quote
character or a line break, and an embedded quote is doubled.  Fields and rows
are modelled at character level (`List Char`). -/

/-- Minimal-quoting trigger of Python's csv writer. -/
def needsQuote (s : List Char) : Bool :=
  s.any fun c => c = ',' || c = '"' || c = '\n' || c = '\r'

/-- Double every quote character (csv escaping inside a quoted field). -/
def escInner : List Char → List Char
  | [] => []
  | c :: cs => if c = '"' then '"' :: '"' :: escInner cs else c :: escInner cs

/-- Serialize one field, quoting exactly when the csv writer does. -/
def escapeField (s : List Char) : List Char :=
  if needsQuote s then '"' :: (escInner s ++ ['"']) else s

/-- Join chunks with a separator character. -/
def joinSep (sep : Char) : List (List Char) → List Char
  | [] => []
  | [f] => f
  | f :: fs => f ++ sep :: joinSep sep fs

/-- One csv line: the escaped fields joined by commas. -/
def serRow (r : List (List Char)) : List Char :=
  joinSep ',' (r.map escapeField)

/-- Model of `df.to_csv(index=False)`: one line per row (header row included by the
caller as the first row), each line terminated by a newline. -/
def toCsv (tbl : List (List (List Char))) : List Char :=
  (tbl.map serRow).foldr (fun line acc => line ++ '\n' :: acc) []

/-- Quote-state transition of a csv scanner: a quote character flips it. -/
def toggle (b : Bool) (c : Char) : Bool :=
  if c = '"' then !b else b

/-- Split on a separator character, ignoring separators inside quotes;
`b` is the current quote state and `acc` the reversed current chunk. -/
def splitQ (sep : Char) : List Char → Bool → List Char → List (List Char)
  | [], _, acc => [acc.reverse]
  | c :: cs, b, acc =>
    if c = sep && !b then acc.reverse :: splitQ sep cs false []
    else splitQ sep cs (toggle b c) (c :: acc)

/-- Undo quote doubling inside a quoted field; a lone quote closes it. -/
def unq : List Char → List Char
  | [] => []
  | [c] => if c = '"' then [] else [c]
  | c :: c' :: cs =>
    if c = '"' then
      if c' = '"' then '"' :: unq cs else []
    else c :: unq (c' :: cs)

/-- Undo `escapeField`: strip the quoting if the field starts with a quote. -/
def unescape (f : List Char) : List Char :=
  if f.head? = some '"' then unq f.tail else f

/-- Parse one csv line into its fields. -/
def parseRow (line : List Char) : List (List Char) :=
  (splitQ ',' line false []).map unescape

/-- Drop the empty chunk produced by the terminating newline of the last
line, as csv readers do. -/
def dropFinalNil : List (List Char) → List (List Char)
  | [] => []
  | [x] => if x.isEmpty then [] else [x]
  | x :: xs => x :: dropFinalNil xs

/-- Parse csv text into rows of fields: split into lines outside quotes,
discard the trailing empty line, parse each line. -/
def parseCsv (csv : List Char) : List (List (List Char)) :=
  (dropFinalNil (splitQ '\n' csv false [])).map parseRow

/-! ### The concrete csv tables of the three views (export paths) -/

/-- The header of the members dataframe (`SELECT * FROM members`). -/
def membersHeader : List (List Char) :=
  ["id", "name", "phone", "email", "role", "joined"].map String.data

/-- One member row rendered to csv fields. -/
def memberToRow (m : Member) : List (List Char) :=
  [(toString m.id).data, m.name.data, m.phone.data, m.email.data, m.role.data,
   (toString m.joined).data]

/-- The members view as a csv table: header row then one row per record. -/
def membersCsvTable (db : DB) : List (List (List Char)) :=
  membersHeader :: (get_members_df db).map memberToRow

/-- The header of the attendance view dataframe. -/
def attHeader : List (List Char) :=
  ["id", "member_id", "member_name", "attend_date", "present", "note"].map String.data

/-- One attendance view row rendered to csv fields (`present` is the stored
0/1 integer; an unresolved member name renders as the empty field). -/
def attToRow (r : AttRow) : List (List Char) :=
  [(toString r.id).data, (toString r.member_id).data, (r.member_name.getD ("")).data,
   (toString r.attend_date).data, (if r.present then ("1" : String) else ("0")).data,
   r.note.data]

/-- The attendance view as a csv table. -/
def attendanceCsvTable (db : DB) : List (List (List Char)) :=
  attHeader :: (get_attendance_df db).map attToRow

/-- The header of the prayers dataframe (`SELECT * FROM prayers ...`). -/
def prayersHeader : List (List Char) :=
  ["id", "requester", "content", "created", "status"].map String.data

/-- One prayer row rendered to csv fields. -/
def prayerToRow (p : Prayer) : List (List Char) :=
  [(toString p.id).data, p.requester.data, p.content.data, (toString p.created).data,
   p.status.data]

/-- The prayers view as a csv table. -/
def prayersCsvTable (db : DB) : List (List (List Char)) :=
  prayersHeader :: (get_prayers_df db).map prayerToRow

/-- The ZIP export handler (src/app.py lines 266-275): three `writestr`
calls appending the fixed-name csv entries to the in-memory archive. -/
def exportAll (db : DB) : List (String × List Char) :=
  let z : List (String × List Char) := []
  let z := z ++ [(("membres.csv" : String), toCsv (membersCsvTable db))]
  let z := z ++ [(("presences.csv" : String), toCsv (attendanceCsvTable db))]
  let z := z ++ [(("prayers.csv" : String), toCsv (prayersCsvTable db))]
  z

/-! ### Auxiliary definitions for the statements and proofs -/

/-- The trailing 30-day window exactly as the specification words it:
inclusive lower bound `now - 30`, current time `now` as upper bound.
(The code's filter, in contrast, has no upper bound.) -/
def inSpecWindow30 (now : Int) (r : AttRow) : Bool :=
  decide (now - 30 ≤ r.attend_date) && decide (r.attend_date ≤ now)

/-- Quote state after scanning a chunk, starting from state `b`. -/
def scanSt (chunk : List Char) (b : Bool) : Bool :=
  chunk.foldl toggle b

/-- Predicate `safeB sep chunk b`: scanning `chunk` from quote state `b` never meets
`sep` outside quotes, i.e. `splitQ` would not split inside `chunk`. -/
def safeB (sep : Char) : List Char → Bool → Bool
  | [], _ => true
  | c :: cs, b => (decide (c ≠ sep) || b) && safeB sep cs (toggle b c)

/-- Fixture: one meeting day (date 5) with one present and one absent
record, as in the spec's Alice/Bob example. -/
def exAtt : List AttRow :=
  [⟨1, 1, some ("Alice"), 5, true, ""⟩, ⟨2, 2, some ("Bob"), 5, false, ""⟩]

/-- Fixture: a populated database used to witness the theorems. -/
def exDb : DB :=
  ⟨[⟨1, "Alice", "06", "a@x", "Leader", 3⟩],
   [⟨1, 1, 5, true, ""⟩],
   [⟨1, "A", "besoin", 4, "open"⟩, ⟨2, "B", "autre", 6, "open"⟩],
   2, 2, 3⟩

/-! ## Theorems -/

/-- The status-update map is the identity on rows whose id differs. -/
theorem map_update_id (pid : Nat) (status : String) :
    ∀ l : List Prayer, (∀ p ∈ l, p.id ≠ pid) →
      l.map (fun p => if p.id = pid then { p with status := status } else p) = l := by
  intro l hl
  induction l with
  | nil => rfl
  | cons a t ih =>
    simp only [List.map_cons]
    rw [if_neg (hl a (List.mem_cons_self a t)),
      ih fun p hp => hl p (List.mem_cons_of_mem a hp)]

/-- The member form never touches the prayers table. -/
theorem add_member_form_prayers (name phone email role : String) (today : Int) (db : DB) :
    (add_member_form name phone email role today db).prayers = db.prayers := by
  unfold add_member_form add_member
  split <;> rfl

/-- Attendance insertion never touches the prayers table. -/
theorem add_attendance_prayers (mid : Nat) (d : Int) (pr : Bool) (note : String) (db : DB) :
    (add_attendance mid d pr note db).prayers = db.prayers :=
  rfl

/-- C1: the member form rejects an empty name (no insert, database
unchanged); a non-empty name appends exactly one member row whose `joined`
field is the current date, leaving the other tables untouched. -/
theorem add_member_form_spec (name phone email role : String) (today : Int) (db : DB) :
    (name = "" → add_member_form name phone email role today db = db) ∧
    (name ≠ "" →
      (add_member_form name phone email role today db).members
          = db.members ++ [⟨db.nextMemberId, name, phone, email, role, today⟩] ∧
      (add_member_form name phone email role today db).attendance = db.attendance ∧
      (add_member_form name phone email role today db).prayers = db.prayers) := by
  refine ⟨fun h => ?_, fun h => ?_⟩
  · simp [add_member_form, h]
  · simp [add_member_form, h, add_member]

/-- C1 witness: an empty name leaves the fixture database unchanged, and
adding "Zoe" on day 7 appends exactly her row. -/
theorem add_member_form_spec_witness :
    (add_member_form ("") ("06") ("a@x") ("Membre") 7 exDb = exDb) ∧
    (add_member_form ("Zoe") ("06") ("a@x") ("Membre") 7 exDb).members
        = exDb.members ++ [⟨exDb.nextMemberId, "Zoe", "06", "a@x", "Membre", 7⟩] :=
  ⟨(add_member_form_spec ("") ("06") ("a@x") ("Membre") 7 exDb).1 rfl,
   ((add_member_form_spec ("Zoe") ("06") ("a@x") ("Membre") 7 exDb).2 (by decide)).1⟩

/-- C2 counterexample: submitting a blank requester with non-empty content
stores the blank string verbatim — the stored requester is not "Anonymous". -/
theorem prayer_form_anonymous_cex :
    (prayer_form ("") ("aide") 9 initState).prayers
        = [⟨1, "", "aide", 9, "open"⟩] ∧
    (prayer_form ("") ("aide") 9 initState).prayers.map Prayer.requester
        ≠ [("Anonymous" : String)] := by
  decide

/-- C2 (amended): the prayer form rejects empty content (no insert);
otherwise it appends exactly one row storing the requester string verbatim
(blank stays blank; the form merely pre-fills "Anonyme"), with status "open"
and the current date as created. -/
theorem prayer_form_spec (requester content : String) (today : Int) (db : DB) :
    (content = "" → prayer_form requester content today db = db) ∧
    (content ≠ "" →
      (prayer_form requester content today db).prayers
          = db.prayers ++ [⟨db.nextPrayerId, requester, content, today, "open"⟩] ∧
      (prayer_form requester content today db).members = db.members ∧
      (prayer_form requester content today db).attendance = db.attendance) := by
  refine ⟨fun h => ?_, fun h => ?_⟩
  · simp [prayer_form, h]
  · simp [prayer_form, h, add_prayer]

/-- C2 witness: empty content leaves the fixture unchanged; non-empty
content appends the row with status "open" and the given date. -/
theorem prayer_form_spec_witness :
    (prayer_form ("X") ("") 9 exDb = exDb) ∧
    (prayer_form ("X") ("aide") 9 exDb).prayers
        = exDb.prayers ++ [⟨exDb.nextPrayerId, "X", "aide", 9, "open"⟩] :=
  ⟨(prayer_form_spec ("X") ("") 9 exDb).1 rfl,
   ((prayer_form_spec ("X") ("aide") 9 exDb).2 (by decide)).1⟩

/-- C4: a confirmation token whose trimmed, uppercased form equals
"CONFIRMER" empties all three tables; any other token leaves the whole
database unchanged. -/
theorem reset_submit_spec (tok : String) (db : DB) :
    (normalizeToken tok = ("CONFIRMER" : String).data →
      (reset_submit tok db).members = [] ∧
      (reset_submit tok db).attendance = [] ∧
      (reset_submit tok db).prayers = []) ∧
    (normalizeToken tok ≠ ("CONFIRMER" : String).data → reset_submit tok db = db) := by
  refine ⟨fun h => ?_, fun h => ?_⟩
  · simp [reset_submit, h, initState]
  · simp [reset_submit, h]

/-- C4 witness: "  confirmer " (whitespace, lower case) resets the fixture;
"NON" leaves it unchanged. -/
theorem reset_submit_spec_witness :
    ((reset_submit ("  confirmer ") exDb).members = [] ∧
     (reset_submit ("  confirmer ") exDb).attendance = [] ∧
     (reset_submit ("  confirmer ") exDb).prayers = []) ∧
    reset_submit ("NON") exDb = exDb :=
  ⟨(reset_submit_spec ("  confirmer ") exDb).1 (by decide),
   (reset_submit_spec ("NON") exDb).2 (by decide)⟩

/-- C5: updating the status of an id absent from the prayers table changes
nothing; updating an existing id (all other ids differing) rewrites exactly
that row's status column, leaving its other columns, all other rows and the
other tables unchanged. -/
theorem update_prayer_status_spec (pid : Nat) (status : String) (db : DB)
    (pre post : List Prayer) (r : Prayer) :
    ((∀ p ∈ db.prayers, p.id ≠ pid) → update_prayer_status pid status db = db) ∧
    (db.prayers = pre ++ r :: post → r.id = pid →
      (∀ p ∈ pre, p.id ≠ pid) → (∀ p ∈ post, p.id ≠ pid) →
      (update_prayer_status pid status db).prayers
          = pre ++ { r with status := status } :: post ∧
      (update_prayer_status pid status db).members = db.members ∧
      (update_prayer_status pid status db).attendance = db.attendance) := by
  constructor
  · intro h
    unfold update_prayer_status
    rw [map_update_id pid status db.prayers h]
  · intro hsplit hr hpre hpost
    refine ⟨?_, rfl, rfl⟩
    show db.prayers.map _ = _
    rw [hsplit, List.map_append, List.map_cons, map_update_id pid status pre hpre,
      map_update_id pid status post hpost, if_pos hr]

/-- C5 witness: on the fixture, updating the absent id 99 is a no-op, and
updating id 2 to "answered" rewrites exactly that row. -/
theorem update_prayer_status_spec_witness :
    (update_prayer_status 99 ("answered") exDb = exDb) ∧
    (update_prayer_status 2 ("answered") exDb).prayers
        = [⟨1, "A", "besoin", 4, "open"⟩, ⟨2, "B", "autre", 6, "answered"⟩] :=
  ⟨(update_prayer_status_spec 99 ("answered") exDb [] [] ⟨1, "A", "besoin", 4, "open"⟩).1
      (by decide),
   ((update_prayer_status_spec 2 ("answered") exDb [⟨1, "A", "besoin", 4, "open"⟩] []
      ⟨2, "B", "autre", 6, "open"⟩).2 rfl rfl (by decide) (by decide)).1⟩

/-- C6: in every database state reachable through the application's
operations, every prayer row's status is "open" or "answered". -/
theorem prayer_status_invariant {db : DB} (h : Reachable db) :
    ∀ p ∈ db.prayers, p.status = "open" ∨ p.status = "answered" := by
  induction h with
  | init =>
    intro p hp
    simp [initState] at hp
  | member name phone email role today _ ih =>
    intro p hp
    rw [add_member_form_prayers] at hp
    exact ih p hp
  | attRec mid d pr note _ ih =>
    intro p hp
    rw [add_attendance_prayers] at hp
    exact ih p hp
  | prayer requester content today _ ih =>
    intro p hp
    by_cases hc : content = ""
    · rw [show prayer_form requester content today _ = _ from if_pos hc] at hp
      exact ih p hp
    · rw [show prayer_form requester content today _ = _ from if_neg hc] at hp
      rcases List.mem_append.mp hp with hold | hnew
      · exact ih p hold
      · left
        rcases List.mem_singleton.mp hnew with rfl
        rfl
  | markAnswered i _ ih =>
    intro p hp
    rcases List.mem_map.mp hp with ⟨q, hq, hfq⟩
    by_cases hid : q.id = i
    · right
      rw [← hfq, if_pos hid]
    · rw [← hfq, if_neg hid]
      exact ih q hq
  | markOpen i _ ih =>
    intro p hp
    rcases List.mem_map.mp hp with ⟨q, hq, hfq⟩
    by_cases hid : q.id = i
    · left
      rw [← hfq, if_pos hid]
    · rw [← hfq, if_neg hid]
      exact ih q hq
  | reset tok _ ih =>
    intro p hp
    unfold reset_submit at hp
    split at hp
    · simp [initState] at hp
    · exact ih p hp

/-- C6 witness: the invariant applied to a concrete reachable state (one
prayer submitted on the fresh database). -/
theorem prayer_status_invariant_witness :
    (⟨1, "A", "aide", 0, "open"⟩ : Prayer).status = "open" ∨
    (⟨1, "A", "aide", 0, "open"⟩ : Prayer).status = "answered" :=
  prayer_status_invariant
    (Reachable.prayer ("A") ("aide") 0 Reachable.init)
    ⟨1, "A", "aide", 0, "open"⟩ (by decide)

/-- C3 counterexample: with "now" = 0 and a single future-dated record
(date 31), the spec's trailing window [now − 30, now] holds no record, yet
the code renders 100%, not "N/A": its filter has no upper bound. -/
theorem attendanceRate30_cex :
    ([⟨1, 1, none, 31, true, ""⟩] : List AttRow).filter (fun r => inSpecWindow30 0 r) = [] ∧
    attendanceRate30 0 [⟨1, 1, none, 31, true, ""⟩] = some 100 := by
  constructor
  · decide
  · simp [attendanceRate30, List.filter, List.countP, List.countP.go]

/-- C3 (amended): the code's 30-day filter keeps every record with date
≥ now − 30 and has no upper bound (future-dated records count).  The rate is
"N/A" (`none`) exactly when that filtered set is empty — in particular on an
empty table — and never 0; on a non-empty filtered set it is the mean of the
present flags expressed as a percentage. -/
theorem attendanceRate30_spec (now : Int) (att : List AttRow) :
    (attendanceRate30 now att = none ↔ (att.filter fun r => now - 30 ≤ r.attend_date) = []) ∧
    ((att.filter fun r => now - 30 ≤ r.attend_date) ≠ [] →
      attendanceRate30 now att
        = some ((((att.filter fun r => now - 30 ≤ r.attend_date).countP fun r => r.present) : ℚ)
            / ((att.filter fun r => now - 30 ≤ r.attend_date).length : ℚ) * 100)) := by
  by_cases hA : att = []
  · subst hA
    simp [attendanceRate30]
  · have hlen : 0 < att.length := List.length_pos.mpr hA
    by_cases hF : (att.filter fun r => now - 30 ≤ r.attend_date) = []
    · simp [attendanceRate30, hlen, hF]
    · have hflen : 0 < (att.filter fun r => now - 30 ≤ r.attend_date).length :=
        List.length_pos.mpr hF
      simp [attendanceRate30, hlen, hflen, hF]

/-- C3 witness: on the Alice/Bob fixture (both records on day 5, "now" = 6)
the filtered set is non-empty and the rate evaluates to 50%. -/
theorem attendanceRate30_spec_witness :
    (exAtt.filter fun r => (6 : Int) - 30 ≤ r.attend_date) ≠ [] ∧
    attendanceRate30 6 exAtt = some 50 := by
  refine ⟨by decide, ?_⟩
  rw [(attendanceRate30_spec 6 exAtt).2 (by decide)]
  simp [exAtt, List.filter, List.countP, List.countP.go]
  norm_num

/-- C7: the daily aggregation emits one row per distinct calendar date,
with the dates strictly ascending, and each row's rate `r` satisfies
`r · (#records that day) = 100 · (#present that day)`, i.e. the mean of the
present flags as a percentage. -/
theorem dailyAttendanceRate_spec (att : List AttRow) :
    List.Pairwise (· < ·) ((dailyAttendanceRate att).map Prod.fst) ∧
    ∀ d r, (d, r) ∈ dailyAttendanceRate att →
      r * ((att.filter fun a => a.attend_date = d).length : ℚ)
          = 100 * ((att.filter fun a => a.attend_date = d).countP fun a => a.present) ∧
      0 < (att.filter fun a => a.attend_date = d).length := by
  constructor
  · have hs : List.Sorted (· ≤ ·)
        (List.insertionSort (· ≤ ·) ((att.map AttRow.attend_date).dedup)) :=
      List.sorted_insertionSort _ _
    have hn : (List.insertionSort (· ≤ ·) ((att.map AttRow.attend_date).dedup)).Nodup :=
      ((List.perm_insertionSort _ _).symm).nodup (List.nodup_dedup _)
    have base := hs.lt_of_le hn
    unfold dailyAttendanceRate
    rw [List.map_map, List.pairwise_map]
    exact base.imp fun h => h
  · intro d r hmem
    unfold dailyAttendanceRate at hmem
    rcases List.mem_map.mp hmem with ⟨d₀, hd₀, heq⟩
    dsimp only at heq
    obtain ⟨hd_eq, hrate⟩ := Prod.mk.injEq .. |>.mp heq
    subst hd_eq
    have hd : d₀ ∈ att.map AttRow.attend_date :=
      List.mem_dedup.mp ((List.perm_insertionSort (· ≤ ·) _).mem_iff.mp hd₀)
    rcases List.mem_map.mp hd with ⟨a, ha, had⟩
    have hmemf : a ∈ att.filter fun x => x.attend_date = d₀ :=
      List.mem_filter.mpr ⟨ha, by simp [had]⟩
    have hpos : 0 < (att.filter fun x => x.attend_date = d₀).length :=
      List.length_pos_of_mem hmemf
    refine ⟨?_, hpos⟩
    have hne : ((att.filter fun x => x.attend_date = d₀).length : ℚ) ≠ 0 :=
      Nat.cast_ne_zero.mpr hpos.ne'
    rw [← hrate]
    field_simp
    ring

/-- C7 witness: the Alice/Bob example — one present and one absent record
on day 5 — yields the single aggregate row (5, 50%), and the theorem's
equation holds there. -/
theorem dailyAttendanceRate_spec_witness :
    (5, (50 : ℚ)) ∈ dailyAttendanceRate exAtt ∧
    (50 : ℚ) * ((exAtt.filter fun a => a.attend_date = 5).length : ℚ)
        = 100 * ((exAtt.filter fun a => a.attend_date = 5).countP fun a => a.present) := by
  have hmem : (5, (50 : ℚ)) ∈ dailyAttendanceRate exAtt := by
    simp [dailyAttendanceRate, exAtt, List.filter, List.countP, List.countP.go, List.dedup,
      List.insertionSort, List.orderedInsert]
    norm_num
  exact ⟨hmem, ((dailyAttendanceRate_spec exAtt).2 5 50 hmem).1⟩

/-- Filtering to one created date commutes with an ordered insert: the
inserted row lands in front of its date class, rows of other dates drop
out. -/
theorem filter_orderedInsert (a : Prayer) (l : List Prayer) (k : Int) :
    (List.orderedInsert createdDesc a l).filter (fun p => p.created = k)
      = if a.created = k then a :: l.filter (fun p => p.created = k)
        else l.filter (fun p => p.created = k) := by
  induction l with
  | nil =>
    by_cases hak : a.created = k <;>
      simp [List.orderedInsert, List.filter, hak]
  | cons b t ih =>
    unfold List.orderedInsert
    by_cases hab : createdDesc a b
    · rw [if_pos hab]
      by_cases hak : a.created = k <;>
        simp [List.filter, hak]
    · rw [if_neg hab]
      have haltb : a.created < b.created := not_le.mp hab
      by_cases hak : a.created = k
      · have hbk : b.created ≠ k := by
          rw [← hak]
          exact (ne_of_gt haltb)
        simp [List.filter, hbk, ih, hak]
      · by_cases hbk : b.created = k <;>
          simp [List.filter, hbk, ih, hak]

/-- Filtering to one created date is invariant under the stable sort. -/
theorem filter_insertionSort (k : Int) :
    ∀ l : List Prayer,
      (List.insertionSort createdDesc l).filter (fun p => p.created = k)
        = l.filter (fun p => p.created = k) := by
  intro l
  induction l with
  | nil => rfl
  | cons a t ih =>
    rw [List.insertionSort, filter_orderedInsert]
    by_cases hak : a.created = k <;>
      simp [List.filter, hak, ih]

/-- C8: the prayers view returns every row of the table (a permutation),
ordered by created date descending, and rows with equal created dates keep
their insertion order: filtering the view to any fixed date yields exactly
the table's rows of that date in table order. -/
theorem get_prayers_df_spec (db : DB) :
    (get_prayers_df db).Perm db.prayers ∧
    List.Sorted createdDesc (get_prayers_df db) ∧
    ∀ k : Int, (get_prayers_df db).filter (fun p => p.created = k)
        = db.prayers.filter (fun p => p.created = k) :=
  ⟨List.perm_insertionSort _ _, List.sorted_insertionSort _ _,
   fun k => filter_insertionSort k db.prayers⟩

/-- C8 witness: the view of the fixture is a permutation of its prayers
table and filtering to date 4 matches the table. -/
theorem get_prayers_df_spec_witness :
    (get_prayers_df exDb).Perm exDb.prayers ∧
    (get_prayers_df exDb).filter (fun p => p.created = 4)
        = exDb.prayers.filter (fun p => p.created = 4) :=
  ⟨(get_prayers_df_spec exDb).1, (get_prayers_df_spec exDb).2.2 4⟩

/-- Scanning a concatenation composes the quote states. -/
theorem scanSt_append (x y : List Char) (b : Bool) :
    scanSt (x ++ y) b = scanSt y (scanSt x b) := by
  simp [scanSt, List.foldl_append]

/-- Safety of a concatenation splits at the intermediate quote state. -/
theorem safeB_append (sep : Char) (x y : List Char) (b : Bool) :
    safeB sep (x ++ y) b = (safeB sep x b && safeB sep y (scanSt x b)) := by
  induction x generalizing b with
  | nil => simp [safeB, scanSt]
  | cons c cs ih => simp [safeB, scanSt, ih, Bool.and_assoc]

/-- Lemma: `splitQ` passes over a safe chunk, accumulating it. -/
theorem splitQ_append (sep : Char) (chunk rest acc : List Char) (b : Bool)
    (h : safeB sep chunk b = true) :
    splitQ sep (chunk ++ rest) b acc
      = splitQ sep rest (scanSt chunk b) (chunk.reverse ++ acc) := by
  induction chunk generalizing b acc with
  | nil => simp [scanSt]
  | cons c cs ih =>
    simp only [safeB, Bool.and_eq_true] at h
    obtain ⟨h1, h2⟩ := h
    have hcond : (decide (c = sep) && !b) = false := by
      rcases Bool.or_eq_true _ _ |>.mp h1 with hne | hb
      · have : c ≠ sep := of_decide_eq_true hne
        simp [this]
      · simp [hb]
    rw [List.cons_append, splitQ, hcond]
    simp only [Bool.false_eq_true, if_false]
    rw [ih _ _ h2]
    simp [scanSt, List.reverse_cons, List.append_assoc]

/-- A separator at quote level zero splits. -/
theorem splitQ_sep_cons (sep : Char) (rest acc : List Char) :
    splitQ sep (sep :: rest) false acc = acc.reverse :: splitQ sep rest false [] := by
  rw [splitQ]
  simp

/-- A chunk without separator and quote characters is safe and leaves the
quote state unchanged. -/
theorem safeB_of_no_special (sep : Char) (s : List Char) :
    ∀ b : Bool, (∀ c ∈ s, c ≠ sep ∧ c ≠ '"') →
      safeB sep s b = true ∧ scanSt s b = b := by
  induction s with
  | nil => exact fun _ _ => ⟨rfl, rfl⟩
  | cons c cs ih =>
    intro b h
    obtain ⟨h1, h2⟩ := h c (List.mem_cons_self c cs)
    have ht : toggle b c = b := by simp [toggle, h2]
    have ihc := ih b fun x hx => h x (List.mem_cons_of_mem c hx)
    constructor
    · simp [safeB, ht, h1, ihc.1]
    · simp only [scanSt, List.foldl_cons] at ihc ⊢
      rw [ht]
      exact ihc.2

/-- The quote-doubled interior of a quoted field is safe when scanned from
inside quotes, and ends inside quotes. -/
theorem escInner_safe (sep : Char) (hsep : sep ≠ '"') (s : List Char) :
    safeB sep (escInner s) true = true ∧ scanSt (escInner s) true = true := by
  have hq : ('"' : Char) ≠ sep := Ne.symm hsep
  induction s with
  | nil => exact ⟨rfl, rfl⟩
  | cons c cs ih =>
    by_cases hc : c = '"'
    · subst hc
      constructor
      · simp [escInner, safeB, toggle, hq, ih.1]
      · simp only [escInner, if_pos rfl, scanSt, List.foldl_cons, toggle, if_pos rfl]
        simpa [scanSt] using ih.2
    · constructor
      · simp [escInner, hc, safeB, toggle, ih.1]
      · simp only [escInner, if_neg hc, scanSt, List.foldl_cons, toggle, if_neg hc]
        simpa [scanSt] using ih.2

/-- An escaped field is safe for the row and line separators and leaves the
scanner outside quotes. -/
theorem escapeField_safe (sep : Char) (hsep : sep = ',' ∨ sep = '\n') (f : List Char) :
    safeB sep (escapeField f) false = true ∧ scanSt (escapeField f) false = false := by
  have hsep' : sep ≠ '"' := by rcases hsep with rfl | rfl <;> decide
  have hq : ('"' : Char) ≠ sep := Ne.symm hsep'
  unfold escapeField
  by_cases hquote : needsQuote f = true
  · rw [if_pos hquote]
    have hinner := escInner_safe sep hsep' f
    have htog : toggle false '"' = true := by simp [toggle]
    constructor
    · simp [safeB, htog, hq, safeB_append, hinner.1, hinner.2, scanSt, toggle]
    · simp only [scanSt, List.foldl_cons, toggle, if_pos rfl]
      show scanSt (escInner f ++ ['"']) true = false
      rw [scanSt_append, hinner.2]
      simp [scanSt, toggle]
  · rw [if_neg hquote]
    apply safeB_of_no_special
    intro c hc
    have hnq : needsQuote f = false := Bool.not_eq_true _ |>.mp hquote
    rw [needsQuote, List.any_eq_false] at hnq
    have hcs := hnq c hc
    simp at hcs
    obtain ⟨⟨⟨hA, hB⟩, hC⟩, hD⟩ := hcs
    rcases hsep with rfl | rfl
    · exact ⟨hA, hB⟩
    · exact ⟨hC, hB⟩

/-- A comma-joined list of escaped fields is still safe for the newline
separator. -/
theorem joinSep_safe (sep sep' : Char) (hne : sep' ≠ sep) (hq : sep' ≠ '"')
    (fs : List (List Char))
    (h : ∀ f ∈ fs, safeB sep f false = true ∧ scanSt f false = false) :
    safeB sep (joinSep sep' fs) false = true ∧ scanSt (joinSep sep' fs) false = false := by
  induction fs with
  | nil => exact ⟨rfl, rfl⟩
  | cons f fs ih =>
    cases fs with
    | nil => exact h f (List.mem_cons_self f [])
    | cons f' rest =>
      have hf := h f (List.mem_cons_self f _)
      have hrest := ih fun g hg => h g (List.mem_cons_of_mem f hg)
      have htog : toggle false sep' = false := by simp [toggle, hq]
      show safeB sep (f ++ sep' :: joinSep sep' (f' :: rest)) false = true ∧
        scanSt (f ++ sep' :: joinSep sep' (f' :: rest)) false = false
      constructor
      · rw [safeB_append, hf.2]
        simp [hf.1, safeB, htog, hne, hrest.1]
      · rw [scanSt_append, hf.2]
        simp only [scanSt, List.foldl_cons, htog]
        exact hrest.2

/-- Splitting a separator-joined list of safe chunks restores the chunks. -/
theorem splitQ_joinSep (sep : Char) (fs : List (List Char)) (hne : fs ≠ [])
    (h : ∀ f ∈ fs, safeB sep f false = true ∧ scanSt f false = false) :
    splitQ sep (joinSep sep fs) false [] = fs := by
  induction fs with
  | nil => exact absurd rfl hne
  | cons f fs ih =>
    cases fs with
    | nil =>
      have hf := h f (List.mem_cons_self f [])
      show splitQ sep f false [] = [f]
      have happ := splitQ_append sep f [] [] false hf.1
      rw [List.append_nil] at happ
      rw [happ]
      simp [splitQ]
    | cons f' rest =>
      have hf := h f (List.mem_cons_self f _)
      show splitQ sep (f ++ sep :: joinSep sep (f' :: rest)) false [] = f :: f' :: rest
      rw [splitQ_append sep f _ [] false hf.1, hf.2, splitQ_sep_cons,
        ih (by simp) fun g hg => h g (List.mem_cons_of_mem f hg)]
      simp

/-- Un-doubling the quotes of an escaped interior, up to the closing quote,
restores the original field. -/
theorem unq_escInner (f : List Char) : unq (escInner f ++ ['"']) = f := by
  induction f with
  | nil => rfl
  | cons c cs ih =>
    by_cases hc : c = '"'
    · subst hc
      rw [escInner, if_pos rfl]
      show unq ('"' :: '"' :: (escInner cs ++ ['"'])) = '"' :: cs
      simp [unq, ih]
    · rw [escInner, if_neg hc]
      show unq (c :: (escInner cs ++ ['"'])) = c :: cs
      cases hcs : escInner cs ++ ['"'] with
      | nil => exact absurd hcs (by simp)
      | cons y ys =>
        simp only [unq]
        rw [if_neg hc, ← hcs, ih]

/-- Unescaping inverts field escaping. -/
theorem unescape_escapeField (f : List Char) : unescape (escapeField f) = f := by
  unfold escapeField
  by_cases hquote : needsQuote f = true
  · rw [if_pos hquote]
    show unescape ('"' :: (escInner f ++ ['"'])) = f
    simp [unescape, unq_escInner]
  · rw [if_neg hquote]
    cases f with
    | nil => rfl
    | cons c cs =>
      have hnq : needsQuote (c :: cs) = false := Bool.not_eq_true _ |>.mp hquote
      rw [needsQuote, List.any_eq_false] at hnq
      have hc : c ≠ '"' := by
        have hcs := hnq c (List.mem_cons_self c cs)
        simp at hcs
        exact hcs.1.1.2
      simp [unescape, hc]

/-- Parsing one serialized row restores its fields. -/
theorem parseRow_serRow (r : List (List Char)) (hne : r ≠ []) :
    parseRow (serRow r) = r := by
  unfold parseRow serRow
  rw [splitQ_joinSep ',' (r.map escapeField) (by simpa using hne)
    (fun g hg => by
      rcases List.mem_map.mp hg with ⟨f, _, rfl⟩
      exact escapeField_safe ',' (Or.inl rfl) f)]
  rw [List.map_map]
  have hcong : ∀ x ∈ r, (unescape ∘ escapeField) x = id x := fun x _ =>
    unescape_escapeField x
  rw [List.map_congr_left hcong, List.map_id]

/-- Splitting the csv text on newlines yields the serialized rows plus the
empty chunk of the terminating newline. -/
theorem splitNL_toCsv (tbl : List (List (List Char))) :
    splitQ '\n' (toCsv tbl) false [] = tbl.map serRow ++ [[]] := by
  induction tbl with
  | nil => rfl
  | cons row rest ih =>
    show splitQ '\n' (serRow row ++ '\n' :: toCsv rest) false []
      = serRow row :: (rest.map serRow ++ [[]])
    have hsafe : safeB '\n' (serRow row) false = true ∧
        scanSt (serRow row) false = false := by
      apply joinSep_safe '\n' ',' (by decide) (by decide)
      intro g hg
      rcases List.mem_map.mp hg with ⟨f, _, rfl⟩
      exact escapeField_safe '\n' (Or.inr rfl) f
    rw [splitQ_append '\n' (serRow row) _ [] false hsafe.1, hsafe.2, splitQ_sep_cons, ih]
    simp

/-- Dropping the final empty line undoes the terminating newline. -/
theorem dropFinalNil_append (l : List (List Char)) : dropFinalNil (l ++ [[]]) = l := by
  induction l with
  | nil => rfl
  | cons x xs ih =>
    cases xs with
    | nil => simp [dropFinalNil]
    | cons y ys =>
      show dropFinalNil (x :: ((y :: ys) ++ [[]])) = x :: (y :: ys)
      rw [List.cons_append, dropFinalNil]
      · rw [← List.cons_append, ih]
      · simp

/-- CSV round trip: parsing the serialization of any table whose rows are
non-empty restores the table exactly. -/
theorem csv_roundtrip (tbl : List (List (List Char))) (h : ∀ r ∈ tbl, r ≠ []) :
    parseCsv (toCsv tbl) = tbl := by
  unfold parseCsv
  rw [splitNL_toCsv, dropFinalNil_append, List.map_map]
  have hcong : ∀ r ∈ tbl, (parseRow ∘ serRow) r = id r := fun r hr =>
    parseRow_serRow r (h r hr)
  rw [List.map_congr_left hcong, List.map_id]

/-- C9: serializing the members view to csv and parsing it back restores the
header and every row exactly — same row count, same column values, for every
database state. -/
theorem membersCsv_roundtrip (db : DB) :
    parseCsv (toCsv (membersCsvTable db))
        = membersHeader :: (get_members_df db).map memberToRow ∧
    (parseCsv (toCsv (membersCsvTable db))).length = (get_members_df db).length + 1 := by
  have h1 : parseCsv (toCsv (membersCsvTable db)) = membersCsvTable db := by
    apply csv_roundtrip
    intro r hr
    rcases List.mem_cons.mp hr with rfl | hmem
    · simp [membersHeader]
    · rcases List.mem_map.mp hmem with ⟨m, _, rfl⟩
      simp [memberToRow]
  refine ⟨h1, ?_⟩
  rw [h1]
  simp [membersCsvTable]

/-- C10: the export archive always holds exactly the three fixed-name csv
entries `membres.csv`, `presences.csv`, `prayers.csv`, the serializations of
the members, attendance and prayers views respectively. -/
theorem exportAll_spec (db : DB) :
    (exportAll db).map Prod.fst
        = [("membres.csv" : String), ("presences.csv"), ("prayers.csv")] ∧
    (exportAll db).map Prod.snd
        = [toCsv (membersCsvTable db), toCsv (attendanceCsvTable db),
           toCsv (prayersCsvTable db)] ∧
    (exportAll db).length = 3 :=
  ⟨rfl, rfl, rfl⟩

end VH
